/-
Verification of the catalog recommendation core (src/catalog/recommend.ts).

The development shallowly embeds the TypeScript module as Lean definitions:

* JavaScript numbers that occur in this core (prices, budget, scores,
  budget deltas) are modelled as rationals `ℚ`; the value `Infinity`
  produced by a missing price or budget is modelled by `⊤` in `WithTop ℚ`.
  Since `Rat.add`/`Rat.sub` are kernel-irreducible, the additions and
  subtractions performed by the code are written with the provably equal
  kernel-computable wrappers `qadd`/`qsub`/`qabs` (see `qadd_eq` etc.).
* `Record<string, T>` objects are modelled as association lists
  `List (String × T)` in insertion order; `Object.entries` iteration is the
  list order and key lookup is `List.lookup`.  A missing object or missing
  field is modelled by the empty list (`pack?.synonyms` is only ever read
  through lookups/defaults, so `undefined` and `{}` are indistinguishable).
* `undefined`/`null`/`NaN` budgets are distinguished by the `Budget` type;
  every test in the source is `typeof b === "number" && !Number.isNaN(b)`,
  captured by `Budget.toNum`.
* `String.prototype.toLowerCase().trim()` is modelled by `strLowerTrim`
  (ASCII lowering, whitespace trim), and `localeCompare` by the
  code-point lexicographic comparison `strLeB` (the host-locale collation
  is environment dependent; code-point order is the deterministic model).
* `Array.prototype.sort` with a consistent comparator is a stable sort;
  it is modelled by the stable insertion sort `sortLe` with the boolean
  relation `candLe a b` ("comparator(a, b) ≤ 0").
-/
import Mathlib

/-! ### Kernel-computable rational helpers -/

/-- Computable rational addition: equal to `a + b` (see `qadd_eq`). -/
def qadd (a b : ℚ) : ℚ := mkRat (a.num * b.den + b.num * a.den) (a.den * b.den)

/-- Computable rational subtraction: equal to `a - b` (see `qsub_eq`). -/
def qsub (a b : ℚ) : ℚ := mkRat (a.num * b.den - b.num * a.den) (a.den * b.den)

/-- Computable absolute value on `ℚ`: equal to `|q|` (see `qabs_eq`). -/
def qabs (q : ℚ) : ℚ := if q < 0 then mkRat (-q.num) q.den else q

/-! ### String helpers (kernel-computable models of the JS string ops) -/

/-- Drop ASCII whitespace from both ends of a character list. -/
def trimChars (cs : List Char) : List Char :=
  ((cs.dropWhile Char.isWhitespace).reverse.dropWhile Char.isWhitespace).reverse

/-- Model of `s.toLowerCase().trim()`. -/
def strLowerTrim (v : String) : String :=
  String.mk (trimChars (v.data.map Char.toLower))

/-- Code-point lexicographic `≤` on character lists. -/
def leChars : List Char → List Char → Bool
  | [], _ => true
  | _ :: _, [] => false
  | a :: as, b :: bs => if a = b then leChars as bs else decide (a < b)

/-- Model of `a.localeCompare(b) ≤ 0`: code-point lexicographic order. -/
def strLeB (s t : String) : Bool := leChars s.data t.data

/-! ### Data model (src/catalog/loader.ts and recommend.ts types) -/

/-- Value of one facet on a catalog item: `scalar string | string[]`. -/
inductive FacetVal where
  | scalar (s : String)
  | arr (vs : List String)
deriving DecidableEq, Repr

/-- CatalogItem from src/catalog/loader.ts (`price_eur?: number`,
`facets?: Record<string, any>`); a missing/null facet entry is modelled
by absence from the association list. -/
structure CatalogItem where
  sku : String
  name : String
  price_eur : Option ℚ
  facets : List (String × FacetVal)
deriving DecidableEq, Repr

/-- Per-facet vocabulary of the domain pack
(`{ values?: string[]; valueSynonyms?: Record<string,string> }`);
missing fields are modelled by empty lists. -/
structure FacetDef where
  values : List String
  valueSynonyms : List (String × String)
deriving DecidableEq, Repr

/-- DomainPackLike from src/catalog/recommend.ts; an `undefined` pack is
modelled by the pack with empty fields (all reads go through
lookups/defaults, so the two are indistinguishable in the source). -/
structure DomainPackLike where
  synonyms : List (String × String)
  facets : List (String × FacetDef)
deriving DecidableEq, Repr

/-- Budget input `budget_eur?: number | null`.  `absent` covers
`undefined`/`null`; `nan` covers a `NaN` number; `num q` is a plain
finite number. -/
inductive Budget where
  | absent
  | nan
  | num (q : ℚ)
deriving DecidableEq, Repr

/-- Model of the test `typeof b === "number" && !Number.isNaN(b)`:
returns the numeric value when it passes. -/
def Budget.toNum : Budget → Option ℚ
  | .num q => some q
  | _ => none

/-- Diagnostics record of src/catalog/recommend.ts. -/
structure Diagnostics where
  unknownFacetKeys : List String
  unknownFacetValues : List (String × List String)
deriving DecidableEq, Repr

/-- Scored candidate produced by `scoreOnce` for one item. -/
structure Scored where
  item : CatalogItem
  score : ℚ
  matched : Nat
  totalAsked : Nat
  priceOk : Bool
  deltaToBudget : WithTop ℚ
deriving DecidableEq, Repr

/-- Debug trace entry of the success result. -/
structure DebugEntry where
  sku : String
  score : ℚ
  matched : Nat
  totalAsked : Nat
  deltaToBudget : WithTop ℚ
deriving DecidableEq, Repr

/-- Echoed criteria of the result (`{ filters, budget_eur }`). -/
structure Criteria where
  filters : List (String × List String)
  budget_eur : Budget
deriving DecidableEq, Repr

/-- Input of `recommendProducts`.  The catalog items are passed directly
(the source obtains them through `loadCatalog(domainId)`, a file-loading
collaborator outside this core; the spec's interface §6 takes `items`).
`limit : Option ℚ` models the optional JS number (default 10). -/
structure RecommendInput where
  items : List CatalogItem
  filters : List (String × List String)
  budget_eur : Budget
  pack : DomainPackLike
  limit : Option ℚ

/-- Result of `recommendProducts`: the three return shapes of the source
(`empty_catalog`, `no_match`, success).  `domainId`/`catalogSource` are
pass-through strings from the catalog collaborator and are omitted. -/
inductive RankResult where
  | emptyCatalog (diagnostics : Diagnostics) (limitUsed : Int)
  | noMatch (criteria : Criteria) (diagnostics : Diagnostics)
      (budgetRelaxed : Bool) (limitUsed : Int)
  | success (criteria : Criteria) (diagnostics : Diagnostics) (total : Nat)
      (items : List CatalogItem) (debug : List DebugEntry)
      (budgetRelaxed : Bool) (limitUsed : Int)
deriving DecidableEq, Repr

/-- Value of the `ok` field of the result. -/
def RankResult.okB : RankResult → Bool
  | .success _ _ _ _ _ _ _ => true
  | _ => false

/-- Value of the `reason` field of the result (absent on success). -/
def RankResult.reasonOf : RankResult → Option String
  | .emptyCatalog _ _ => some "empty_catalog"
  | .noMatch _ _ _ _ => some "no_match"
  | .success _ _ _ _ _ _ _ => none

/-- Value of the `items` field of the result. -/
def RankResult.itemsOf : RankResult → List CatalogItem
  | .emptyCatalog _ _ => []
  | .noMatch _ _ _ _ => []
  | .success _ _ _ items _ _ _ => items

/-- Value of the `total` field of the result. -/
def RankResult.totalOf : RankResult → Nat
  | .emptyCatalog _ _ => 0
  | .noMatch _ _ _ _ => 0
  | .success _ _ total _ _ _ _ => total

/-- Value of the `budgetRelaxed` field; the `empty_catalog` return of the
source carries no such field, hence `none` there. -/
def RankResult.budgetRelaxedOf : RankResult → Option Bool
  | .emptyCatalog _ _ => none
  | .noMatch _ _ b _ => some b
  | .success _ _ _ _ _ b _ => some b

/-- Value of the `limitUsed` field of the result. -/
def RankResult.limitUsedOf : RankResult → Int
  | .emptyCatalog _ l => l
  | .noMatch _ _ _ l => l
  | .success _ _ _ _ _ _ l => l

/-- Value of the `diagnostics` field of the result. -/
def RankResult.diagnosticsOf : RankResult → Diagnostics
  | .emptyCatalog d _ => d
  | .noMatch _ d _ _ => d
  | .success _ d _ _ _ _ _ => d

/-! ### Vocabulary resolver (normalizeValue / applyFacetValueSynonyms) -/

/-- Source `normalizeValue`: lower-case and trim, then look the result up
in `pack.synonyms`, falling back to the lowered/trimmed value. -/
def normalizeValue (v : String) (pack : DomainPackLike) : String :=
  let s := strLowerTrim v
  match pack.synonyms.lookup s with
  | some c => c
  | none => s

/-- Source `applyFacetValueSynonyms`: look `value` up in
`pack.facets[facetKey].valueSynonyms` (empty when missing), falling back
to `value`. -/
def applyFacetValueSynonyms (value : String) (facetKey : String)
    (pack : DomainPackLike) : String :=
  let syn := ((pack.facets.lookup facetKey).map FacetDef.valueSynonyms).getD []
  (syn.lookup value).getD value

/-! ### Facet matcher (matchFacets) -/

/-- Source `matchFacets`: for each requested facet with a non-empty value
list count `totalAsked`, normalize requested and item values, and count a
match when the normalized sets intersect.  The loop over `Object.entries`
is rendered as recursion over the association list (the counters are
additive, so processing order is irrelevant to the result). -/
def matchFacets (item : CatalogItem) (requested : List (String × List String))
    (pack : DomainPackLike) : Nat × Nat :=
  match requested with
  | [] => (0, 0)
  | (facetKey, wantedValues) :: rest =>
    let acc := matchFacets item rest pack
    if wantedValues.isEmpty then acc
    else
      let wanted := (wantedValues.map (fun v => normalizeValue v pack)).map
        (fun v => applyFacetValueSynonyms v facetKey pack)
      match item.facets.lookup facetKey with
      | none => (acc.1, acc.2 + 1)
      | some itemVal =>
        let itemVals : List String :=
          match itemVal with
          | .arr vs => vs.map (fun v => normalizeValue v pack)
          | .scalar s => [normalizeValue s pack]
        let itemValsNorm := itemVals.map
          (fun v => applyFacetValueSynonyms v facetKey pack)
        if wanted.any (fun w => itemValsNorm.contains w) then
          (acc.1 + 1, acc.2 + 1)
        else (acc.1, acc.2 + 1)

/-! ### Diagnostics builder (computeDiagnostics) -/

/-- Boolean test used by `computeDiagnostics` on one requested raw value
of a known facet: globally normalize, apply the facet's valueSynonyms,
and check absence from the allowed set. -/
def isUnknownValue (pack : DomainPackLike) (fdef : FacetDef) (raw : String) : Bool :=
  let allowed := fdef.values.map (fun v => normalizeValue v pack)
  let norm := normalizeValue raw pack
  let withFacetSyn := (fdef.valueSynonyms.lookup norm).getD norm
  !(allowed.contains withFacetSyn)

/-- Source `computeDiagnostics`: unknown facet keys, and for known facet
keys the requested raw values whose normalization is not in the allowed
set.  The loop appends in iteration order; the recursion prepends the
head entry to the result of the tail, producing the same lists. -/
def computeDiagnostics (filters : List (String × List String))
    (pack : DomainPackLike) : Diagnostics :=
  match filters with
  | [] => ⟨[], []⟩
  | (facetKey, values) :: rest =>
    let d := computeDiagnostics rest pack
    match pack.facets.lookup facetKey with
    | none => ⟨facetKey :: d.unknownFacetKeys, d.unknownFacetValues⟩
    | some fdef =>
      let unknowns := values.filter (fun raw => isUnknownValue pack fdef raw)
      if unknowns.isEmpty then d
      else ⟨d.unknownFacetKeys, (facetKey, unknowns) :: d.unknownFacetValues⟩

/-! ### Scorer (priceDeltaToBudget and the per-item scoring) -/

/-- Source `priceDeltaToBudget`: `Infinity` (⊤) when the budget is not a
plain number or the item has no numeric price, else `|price - budget|`. -/
def priceDeltaToBudget (item : CatalogItem) (budget : Budget) : WithTop ℚ :=
  match budget.toNum with
  | none => ⊤
  | some b =>
    match item.price_eur with
    | none => ⊤
    | some p => ((qabs (qsub p b) : ℚ) : WithTop ℚ)

/-- Price used by the sort comparator: the item's price, or `Infinity`
(⊤) when missing. -/
def priceInf (item : CatalogItem) : WithTop ℚ :=
  match item.price_eur with
  | some p => ((p : ℚ) : WithTop ℚ)
  | none => ⊤

/-- Per-item scoring of `scoreOnce`: `score = matched` plus `0.5` when a
numeric budget is given, the item has a numeric price and
`price ≤ budget`; `priceOk` is cleared exactly when the numeric price
exceeds the numeric budget. -/
def scoreItem (filters : List (String × List String)) (budget : Budget)
    (pack : DomainPackLike) (it : CatalogItem) : Scored :=
  let mt := matchFacets it filters pack
  let sp : ℚ × Bool :=
    match budget.toNum with
    | none => (((mt.1 : Nat) : ℚ), true)
    | some b =>
      match it.price_eur with
      | none => (((mt.1 : Nat) : ℚ), true)
      | some p =>
        if p ≤ b then (qadd ((mt.1 : Nat) : ℚ) (mkRat 1 2), true)
        else (((mt.1 : Nat) : ℚ), false)
  { item := it, score := sp.1, matched := mt.1, totalAsked := mt.2,
    priceOk := sp.2, deltaToBudget := priceDeltaToBudget it budget }

/-- Keep gate of `scoreOnce` (the `filtered` callback): `mustMatch`
requires `matched > 0` when the filters object has at least one key, and
`budgetOK` requires `priceOk` when a numeric budget is given and the pass
is strict. -/
def keepCandidate (filters : List (String × List String)) (budget : Budget)
    (respectBudgetStrict : Bool) (s : Scored) : Bool :=
  let mustMatch := if filters.isEmpty then true else decide (0 < s.matched)
  let budgetOK :=
    match budget.toNum with
    | some _ => s.priceOk || !respectBudgetStrict
    | none => true
  mustMatch && budgetOK

/-! ### Sort comparator and stable sort -/

/-- Lexicographic step of a boolean comparator, ascending component:
equal keys defer to the tie-break `tail`. -/
def lexAsc {γ β : Type} [LinearOrder β] (f : γ → β) (tail : γ → γ → Bool)
    (a b : γ) : Bool :=
  if f a = f b then tail a b else decide (f a < f b)

/-- Lexicographic step of a boolean comparator, descending component. -/
def lexDesc {γ β : Type} [LinearOrder β] (f : γ → β) (tail : γ → γ → Bool)
    (a b : γ) : Bool :=
  if f a = f b then tail a b else decide (f b < f a)

/-- Final name tie-break of the comparator (`localeCompare ≤ 0`). -/
def nameLeB (a b : Scored) : Bool := strLeB a.item.name b.item.name

/-- Sort comparator of `scoreOnce`, read as "comparator(a,b) ≤ 0": score
descending, then `deltaToBudget` ascending, then price ascending (missing
price = `Infinity`), then name ascending. -/
def candLe : Scored → Scored → Bool :=
  lexDesc Scored.score (lexAsc Scored.deltaToBudget
    (lexAsc (fun s => priceInf s.item) nameLeB))

/-- Stable insertion of `x` into a sorted list: `x` is placed before the
first element `y` with `le x y` (ties keep the earlier-inserted element
later, i.e. original order). -/
def insertLe {α : Type} (le : α → α → Bool) (x : α) : List α → List α
  | [] => [x]
  | y :: ys => if le x y then x :: y :: ys else y :: insertLe le x ys

/-- Stable insertion sort, the model of `Array.prototype.sort` with a
consistent comparator (JS sort is stable; stable sorts of a total
preorder are unique, so the model is unambiguous). -/
def sortLe {α : Type} (le : α → α → Bool) : List α → List α
  | [] => []
  | x :: xs => insertLe le x (sortLe le xs)

/-- One pass of scoring/filtering/sorting (`scoreOnce` closure of the
source): map `scoreItem` over the catalog, filter by the keep gate, sort
by the comparator. -/
def scoreOnce (items : List CatalogItem) (filters : List (String × List String))
    (budget : Budget) (pack : DomainPackLike) (respectBudgetStrict : Bool) :
    List Scored :=
  sortLe candLe (((items.map (scoreItem filters budget pack))).filter
    (keepCandidate filters budget respectBudgetStrict))

/-! ### Ranking pipeline (recommendProducts) -/

/-- Model of ECMAScript `ToInt32` on a finite rational: truncate toward
zero, wrap modulo `2^32` into `[-2^31, 2^31)`.  This is the semantics of
`rawLimit | 0` in the source. -/
def toInt32 (q : ℚ) : Int :=
  let t := Int.tdiv q.num (q.den : Int)
  let m := t % 4294967296
  if 2147483648 ≤ m then m - 4294967296 else m

/-- Effective limit of the source:
`Math.max(1, Math.min(50, rawLimit | 0))` with default `10`. -/
def effectiveLimit (rawLimit : Option ℚ) : Int :=
  let r := toInt32 (rawLimit.getD 10)
  max 1 (min 50 r)

/-- Debug trace of the capped window. -/
def debugOf (window : List Scored) : List DebugEntry :=
  window.map (fun s =>
    { sku := s.item.sku, score := s.score, matched := s.matched,
      totalAsked := s.totalAsked, deltaToBudget := s.deltaToBudget })

/-- Source `recommendProducts`: empty-catalog early return, diagnostics,
strict pass, conditional relaxed pass, cap, result shaping. -/
def recommendProducts (input : RecommendInput) : RankResult :=
  let filters := input.filters
  let limit := effectiveLimit input.limit
  if input.items.isEmpty then
    .emptyCatalog (computeDiagnostics filters input.pack) limit
  else
    let diagnostics := computeDiagnostics filters input.pack
    let strictList := scoreOnce input.items filters input.budget_eur input.pack true
    let fr : List Scored × Bool :=
      if strictList.isEmpty && (input.budget_eur.toNum.isSome) then
        (scoreOnce input.items filters input.budget_eur input.pack false, true)
      else (strictList, false)
    let window := fr.1.take limit.toNat
    let items := window.map Scored.item
    if items.isEmpty then
      .noMatch ⟨filters, input.budget_eur⟩ diagnostics fr.2 limit
    else
      .success ⟨filters, input.budget_eur⟩ diagnostics fr.1.length items
        (debugOf window) fr.2 limit

/-- Spec-side definition, modelled from the spec's words for claim C6:
`clamp(limit, 1, 50)` as plain rational clamping (no integer coercion). -/
def clampSpec (q : ℚ) : ℚ := max 1 (min 50 q)

/-- Budget part of the strict keep gate: when a numeric budget is given
the candidate must have `priceOk`; without one the gate passes. -/
def budgetGateB (budget : Budget) (s : Scored) : Bool :=
  match budget.toNum with
  | some _ => s.priceOk
  | none => true

/-! ### Concrete inputs used by scenario claims and counterexamples -/

/-- Scenario A item W1: `{sku:"W1",name:"Alpha",price:12,facets:{color:"red",taste:["light"]}}`. -/
def itemW1 : CatalogItem :=
  ⟨"W1", "Alpha", some 12, [("color", .scalar "red"), ("taste", .arr ["light"])]⟩

/-- Scenario A item W2: `{sku:"W2",name:"Beta",price:20,facets:{color:"red"}}`. -/
def itemW2 : CatalogItem := ⟨"W2", "Beta", some 20, [("color", .scalar "red")]⟩

/-- Domain pack with empty synonym table and no declared facets. -/
def packEmpty : DomainPackLike := ⟨[], []⟩

/-- Scenario A filters `{color:["red"]}`. -/
def filtersA : List (String × List String) := [("color", ["red"])]

/-- Scenario A input: the two-item catalog, `{color:["red"]}`, budget 15,
empty synonym pack, default limit. -/
def inputA : RecommendInput := ⟨[itemW1, itemW2], filtersA, .num 15, packEmpty, none⟩

/-- Priceless item used for claim C5. -/
def itemP1 : CatalogItem := ⟨"P1", "NoPrice", none, []⟩

/-- One-item catalog used for claim C8. -/
def itemA1 : CatalogItem := ⟨"A1", "A", some 5, []⟩

/-- Filters mapping whose single key carries an empty value sequence. -/
def filtersEmptyVals : List (String × List String) := [("color", [])]

/-- Domain pack declaring one facet `color` with allowed value `red`. -/
def packC : DomainPackLike := ⟨[], [("color", ⟨["red"], []⟩)]⟩

/-- Filters requesting a known and an unknown value of a known facet. -/
def filtersC : List (String × List String) := [("color", ["red", "blue"])]

/-! ### Toolkit: rational wrapper lemmas -/

theorem qadd_eq (a b : ℚ) : qadd a b = a + b := by rw [qadd, Rat.add_def']

theorem qsub_eq (a b : ℚ) : qsub a b = a - b := by rw [qsub, Rat.sub_def']

theorem qabs_eq (q : ℚ) : qabs q = |q| := by
  rw [qabs]
  split
  · rw [abs_of_neg (by assumption), ← Rat.neg_mkRat, Rat.mkRat_self]
  · rw [abs_of_nonneg (le_of_not_lt (by assumption))]

/-! ### Toolkit: stable insertion sort lemmas -/

theorem mem_insertLe {α : Type} (le : α → α → Bool) (x a : α) (l : List α) :
    a ∈ insertLe le x l ↔ a = x ∨ a ∈ l := by
  induction l with
  | nil => simp [insertLe]
  | cons y ys ih =>
    cases hxy : le x y <;> (simp [insertLe, hxy, ih]; try tauto)

theorem mem_sortLe {α : Type} (le : α → α → Bool) (a : α) (l : List α) :
    a ∈ sortLe le l ↔ a ∈ l := by
  induction l with
  | nil => simp [sortLe]
  | cons x xs ih => simp [sortLe, mem_insertLe, ih]

theorem pairwise_insertLe {α : Type} {le : α → α → Bool}
    (htr : ∀ a b c, le a b = true → le b c = true → le a c = true)
    (hto : ∀ a b, (le a b || le b a) = true)
    (x : α) {l : List α} (hl : l.Pairwise (fun a b => le a b = true)) :
    (insertLe le x l).Pairwise (fun a b => le a b = true) := by
  induction l with
  | nil => simp [insertLe]
  | cons y ys ih =>
    rcases hl with _ | ⟨hy, hys⟩
    cases hxy : le x y with
    | true =>
      simp only [insertLe, hxy, if_pos]
      refine List.Pairwise.cons ?_ (List.Pairwise.cons hy hys)
      intro b hb
      rcases List.mem_cons.mp hb with rfl | hb
      · exact hxy
      · exact htr x y b hxy (hy b hb)
    | false =>
      have hyx : le y x = true := by
        have h := hto x y
        rw [hxy] at h
        simpa using h
      simp only [insertLe, hxy]
      simp only [Bool.false_eq_true, if_false]
      refine List.Pairwise.cons ?_ (ih hys)
      intro b hb
      rcases (mem_insertLe le x b ys).mp hb with rfl | hb
      · exact hyx
      · exact hy b hb

theorem pairwise_sortLe {α : Type} {le : α → α → Bool}
    (htr : ∀ a b c, le a b = true → le b c = true → le a c = true)
    (hto : ∀ a b, (le a b || le b a) = true) (l : List α) :
    (sortLe le l).Pairwise (fun a b => le a b = true) := by
  induction l with
  | nil => simp [sortLe]
  | cons x xs ih => exact pairwise_insertLe htr hto x ih

theorem insertLe_of_head_le {α : Type} {le : α → α → Bool} {x : α} {m : List α}
    (h : ∀ b ∈ m, le x b = true) : insertLe le x m = x :: m := by
  cases m with
  | nil => rfl
  | cons b bs => simp [insertLe, h b (List.mem_cons_self b bs)]

theorem filter_insertLe {α : Type} {le : α → α → Bool}
    (htr : ∀ a b c, le a b = true → le b c = true → le a c = true)
    (p : α → Bool) (x : α) {l : List α}
    (hl : l.Pairwise (fun a b => le a b = true)) :
    (insertLe le x l).filter p =
      if p x then insertLe le x (l.filter p) else l.filter p := by
  induction l with
  | nil => cases hpx : p x <;> simp [insertLe, List.filter, hpx]
  | cons y ys ih =>
    rcases hl with _ | ⟨hy, hys⟩
    cases hxy : le x y with
    | true =>
      simp only [insertLe, hxy, if_pos]
      have hall : ∀ b ∈ (y :: ys).filter p, le x b = true := by
        intro b hb
        rcases List.mem_cons.mp (List.mem_of_mem_filter hb) with rfl | hb2
        · exact hxy
        · exact htr x y b hxy (hy b hb2)
      cases hpx : p x with
      | true =>
        rw [List.filter_cons_of_pos hpx, if_pos rfl]
        rw [insertLe_of_head_le hall]
      | false =>
        rw [List.filter_cons_of_neg (by simp [hpx])]
        simp
    | false =>
      simp only [insertLe, hxy, Bool.false_eq_true, if_false]
      cases hpx : p x with
      | true =>
        cases hpy : p y with
        | true =>
          rw [List.filter_cons_of_pos hpy, ih hys, if_pos hpx,
            List.filter_cons_of_pos hpy, insertLe, hxy]
          simp [hpx]
        | false =>
          rw [List.filter_cons_of_neg (by simp [hpy]), ih hys, if_pos hpx,
            List.filter_cons_of_neg (by simp [hpy])]
          simp [hpx]
      | false =>
        cases hpy : p y with
        | true =>
          rw [List.filter_cons_of_pos hpy, ih hys, if_neg (by simp [hpx]),
            List.filter_cons_of_pos hpy]
          simp [hpx]
        | false =>
          rw [List.filter_cons_of_neg (by simp [hpy]), ih hys, if_neg (by simp [hpx]),
            List.filter_cons_of_neg (by simp [hpy])]
          simp [hpx]

theorem filter_sortLe {α : Type} {le : α → α → Bool}
    (htr : ∀ a b c, le a b = true → le b c = true → le a c = true)
    (hto : ∀ a b, (le a b || le b a) = true)
    (p : α → Bool) (l : List α) :
    (sortLe le l).filter p = sortLe le (l.filter p) := by
  induction l with
  | nil => rfl
  | cons a l ih =>
    show (insertLe le a (sortLe le l)).filter p = sortLe le ((a :: l).filter p)
    rw [filter_insertLe htr p a (pairwise_sortLe htr hto l), ih]
    cases hpa : p a with
    | true =>
      rw [if_pos rfl, List.filter_cons_of_pos hpa]
      rfl
    | false =>
      rw [if_neg (by simp), List.filter_cons_of_neg (by simp [hpa])]

/-! ### Toolkit: comparator transitivity and totality -/

theorem leChars_trans : ∀ (as bs cs : List Char),
    leChars as bs = true → leChars bs cs = true → leChars as cs = true := by
  intro as
  induction as with
  | nil => intro bs cs _ _; rfl
  | cons a as ih =>
    intro bs cs hab hbc
    cases bs with
    | nil => simp [leChars] at hab
    | cons b bs =>
      cases cs with
      | nil => simp [leChars] at hbc
      | cons c cs =>
        simp only [leChars] at hab hbc ⊢
        by_cases h1 : a = b <;> by_cases h2 : b = c
        · rw [if_pos (h1.trans h2)]
          rw [if_pos h1] at hab
          rw [if_pos h2] at hbc
          exact ih bs cs hab hbc
        · rw [if_neg h2] at hbc
          have hlt : b < c := of_decide_eq_true hbc
          have hac : a < c := by rw [h1]; exact hlt
          rw [if_neg (ne_of_lt hac)]
          exact decide_eq_true hac
        · rw [if_neg h1] at hab
          have hlt : a < b := of_decide_eq_true hab
          have hac : a < c := by rw [← h2]; exact hlt
          rw [if_neg (ne_of_lt hac)]
          exact decide_eq_true hac
        · rw [if_neg h1] at hab
          rw [if_neg h2] at hbc
          have hac : a < c := lt_trans (of_decide_eq_true hab) (of_decide_eq_true hbc)
          rw [if_neg (ne_of_lt hac)]
          exact decide_eq_true hac

theorem leChars_total : ∀ (as bs : List Char),
    (leChars as bs || leChars bs as) = true := by
  intro as
  induction as with
  | nil => intro bs; simp [leChars]
  | cons a as ih =>
    intro bs
    cases bs with
    | nil => simp [leChars]
    | cons b bs =>
      simp only [leChars]
      by_cases h : a = b
      · rw [if_pos h, if_pos h.symm]
        exact ih bs
      · rcases lt_or_gt_of_ne h with hlt | hgt
        · rw [if_neg h, if_neg (fun hh => h hh.symm)]
          simp [decide_eq_true hlt]
        · rw [if_neg h, if_neg (fun hh => h hh.symm)]
          simp [decide_eq_true hgt]

theorem lexAsc_trans {γ β : Type} [LinearOrder β] (f : γ → β) (tail : γ → γ → Bool)
    (ht : ∀ a b c, tail a b = true → tail b c = true → tail a c = true)
    (a b c : γ) (hab : lexAsc f tail a b = true) (hbc : lexAsc f tail b c = true) :
    lexAsc f tail a c = true := by
  unfold lexAsc at hab hbc ⊢
  by_cases h1 : f a = f b <;> by_cases h2 : f b = f c
  · rw [if_pos h1] at hab
    rw [if_pos h2] at hbc
    rw [if_pos (h1.trans h2)]
    exact ht a b c hab hbc
  · rw [if_neg h2] at hbc
    have hac : f a < f c := by rw [h1]; exact of_decide_eq_true hbc
    rw [if_neg (ne_of_lt hac)]
    exact decide_eq_true hac
  · rw [if_neg h1] at hab
    have hac : f a < f c := by rw [← h2]; exact of_decide_eq_true hab
    rw [if_neg (ne_of_lt hac)]
    exact decide_eq_true hac
  · rw [if_neg h1] at hab
    rw [if_neg h2] at hbc
    have hac : f a < f c := lt_trans (of_decide_eq_true hab) (of_decide_eq_true hbc)
    rw [if_neg (ne_of_lt hac)]
    exact decide_eq_true hac

theorem lexAsc_total {γ β : Type} [LinearOrder β] (f : γ → β) (tail : γ → γ → Bool)
    (ht : ∀ a b, (tail a b || tail b a) = true) (a b : γ) :
    (lexAsc f tail a b || lexAsc f tail b a) = true := by
  unfold lexAsc
  by_cases h : f a = f b
  · rw [if_pos h, if_pos h.symm]
    exact ht a b
  · rcases lt_or_gt_of_ne h with hlt | hgt
    · rw [if_neg h, if_neg (fun hh => h hh.symm)]
      simp [decide_eq_true hlt]
    · rw [if_neg h, if_neg (fun hh => h hh.symm)]
      simp [decide_eq_true hgt]

theorem lexDesc_trans {γ β : Type} [LinearOrder β] (f : γ → β) (tail : γ → γ → Bool)
    (ht : ∀ a b c, tail a b = true → tail b c = true → tail a c = true)
    (a b c : γ) (hab : lexDesc f tail a b = true) (hbc : lexDesc f tail b c = true) :
    lexDesc f tail a c = true := by
  unfold lexDesc at hab hbc ⊢
  by_cases h1 : f a = f b <;> by_cases h2 : f b = f c
  · rw [if_pos h1] at hab
    rw [if_pos h2] at hbc
    rw [if_pos (h1.trans h2)]
    exact ht a b c hab hbc
  · rw [if_neg h2] at hbc
    have hac : f c < f a := by rw [h1]; exact of_decide_eq_true hbc
    rw [if_neg (fun hh => (ne_of_lt hac) hh.symm)]
    exact decide_eq_true hac
  · rw [if_neg h1] at hab
    have hac : f c < f a := by rw [← h2]; exact of_decide_eq_true hab
    rw [if_neg (fun hh => (ne_of_lt hac) hh.symm)]
    exact decide_eq_true hac
  · rw [if_neg h1] at hab
    rw [if_neg h2] at hbc
    have hac : f c < f a := lt_trans (of_decide_eq_true hbc) (of_decide_eq_true hab)
    rw [if_neg (fun hh => (ne_of_lt hac) hh.symm)]
    exact decide_eq_true hac

theorem lexDesc_total {γ β : Type} [LinearOrder β] (f : γ → β) (tail : γ → γ → Bool)
    (ht : ∀ a b, (tail a b || tail b a) = true) (a b : γ) :
    (lexDesc f tail a b || lexDesc f tail b a) = true := by
  unfold lexDesc
  by_cases h : f a = f b
  · rw [if_pos h, if_pos h.symm]
    exact ht a b
  · rcases lt_or_gt_of_ne h with hlt | hgt
    · rw [if_neg h, if_neg (fun hh => h hh.symm)]
      simp [decide_eq_true hlt]
    · rw [if_neg h, if_neg (fun hh => h hh.symm)]
      simp [decide_eq_true hgt]

theorem nameLeB_trans (a b c : Scored) (hab : nameLeB a b = true)
    (hbc : nameLeB b c = true) : nameLeB a c = true :=
  leChars_trans _ _ _ hab hbc

theorem nameLeB_total (a b : Scored) : (nameLeB a b || nameLeB b a) = true :=
  leChars_total _ _

theorem candLe_trans (a b c : Scored) (hab : candLe a b = true)
    (hbc : candLe b c = true) : candLe a c = true := by
  unfold candLe at hab hbc ⊢
  exact lexDesc_trans _ _
    (fun x y z hxy hyz => lexAsc_trans _ _
      (fun u v w huv hvw => lexAsc_trans _ _ nameLeB_trans u v w huv hvw) x y z hxy hyz)
    a b c hab hbc

theorem candLe_total (a b : Scored) : (candLe a b || candLe b a) = true := by
  unfold candLe
  exact lexDesc_total _ _
    (fun x y => lexAsc_total _ _ (fun u v => lexAsc_total _ _ nameLeB_total u v) x y) a b

theorem candLe_iff (a b : Scored) : candLe a b = true ↔
    (b.score < a.score ∨ (a.score = b.score ∧
      (a.deltaToBudget < b.deltaToBudget ∨ (a.deltaToBudget = b.deltaToBudget ∧
        (priceInf a.item < priceInf b.item ∨ (priceInf a.item = priceInf b.item ∧
          strLeB a.item.name b.item.name = true)))))) := by
  unfold candLe lexDesc lexAsc nameLeB
  by_cases h1 : a.score = b.score <;>
    by_cases h2 : a.deltaToBudget = b.deltaToBudget <;>
      by_cases h3 : priceInf a.item = priceInf b.item <;>
        simp [h1, h2, h3]

/-! ### Toolkit: strict and relaxed keep gates -/

theorem keepCandidate_strict_eq (filters : List (String × List String))
    (budget : Budget) (s : Scored) :
    keepCandidate filters budget true s =
      (keepCandidate filters budget false s && budgetGateB budget s) := by
  unfold keepCandidate budgetGateB
  cases hb : budget.toNum <;> cases s.priceOk <;> simp [hb]

theorem scoreOnce_strict_eq_filter (items : List CatalogItem)
    (filters : List (String × List String)) (budget : Budget)
    (pack : DomainPackLike) :
    scoreOnce items filters budget pack true =
      (scoreOnce items filters budget pack false).filter (budgetGateB budget) := by
  unfold scoreOnce
  rw [filter_sortLe candLe_trans candLe_total]
  congr 1
  rw [List.filter_filter]
  apply List.filter_congr
  intro s _
  rw [keepCandidate_strict_eq]
  exact Bool.and_comm _ _

/-! ### Toolkit: empty-valued filters and the limit computation -/

theorem matchFacets_all_empty (item : CatalogItem) (pack : DomainPackLike) :
    ∀ filters : List (String × List String),
    (∀ e ∈ filters, e.2 = ([] : List String)) →
    matchFacets item filters pack = (0, 0) := by
  intro filters
  induction filters with
  | nil => intro _; rfl
  | cons e rest ih =>
    intro h
    obtain ⟨k, vs⟩ := e
    have he : vs = [] := h (k, vs) (List.mem_cons_self _ _)
    subst he
    have hrest := ih (fun x hx => h x (List.mem_cons_of_mem _ hx))
    unfold matchFacets
    simp [hrest]

theorem toInt32_intCast (n : Int) (h1 : -2147483648 ≤ n) (h2 : n < 2147483648) :
    toInt32 ((n : ℤ) : ℚ) = n := by
  unfold toInt32
  rw [Rat.num_intCast, Rat.den_intCast]
  simp only [Nat.cast_one, Int.tdiv_one]
  split <;> omega

/-! ### Claim theorems -/

/-- C10: in every pass the candidates carry the same per-item scoring
(the scored records are shared values), the strict pass equals the
relaxed pass filtered by the budget gate, hence the strict sorted list is
a subsequence of the relaxed sorted list and every strict candidate also
appears (identically) among the relaxed candidates. -/
theorem C10_relaxation_monotonic (items : List CatalogItem)
    (filters : List (String × List String)) (budget : Budget)
    (pack : DomainPackLike) :
    scoreOnce items filters budget pack true =
      (scoreOnce items filters budget pack false).filter (budgetGateB budget) ∧
    (scoreOnce items filters budget pack true).Sublist
      (scoreOnce items filters budget pack false) ∧
    (∀ s ∈ scoreOnce items filters budget pack true,
       s ∈ scoreOnce items filters budget pack false) := by
  have heq := scoreOnce_strict_eq_filter items filters budget pack
  have hsub : (scoreOnce items filters budget pack true).Sublist
      (scoreOnce items filters budget pack false) := by
    rw [heq]
    exact List.filter_sublist _
  exact ⟨heq, hsub, fun s hs => hsub.subset hs⟩

/-- C3: in every pass the output of `scoreOnce` is ordered by score
descending, then `deltaToBudget` ascending, then price ascending with a
missing price sorting last (`⊤`), then name ascending in code-point
lexicographic order as the final tie-break; in particular two candidates
with equal score, delta and price appear in ascending name order. -/
theorem C3_sort_order (items : List CatalogItem)
    (filters : List (String × List String)) (budget : Budget)
    (pack : DomainPackLike) (strict : Bool) :
    (scoreOnce items filters budget pack strict).Pairwise (fun a b =>
      b.score < a.score ∨ (a.score = b.score ∧
        (a.deltaToBudget < b.deltaToBudget ∨ (a.deltaToBudget = b.deltaToBudget ∧
          (priceInf a.item < priceInf b.item ∨ (priceInf a.item = priceInf b.item ∧
            strLeB a.item.name b.item.name = true)))))) := by
  have hp := pairwise_sortLe candLe_trans candLe_total
    ((items.map (scoreItem filters budget pack)).filter
      (keepCandidate filters budget strict))
  exact List.Pairwise.imp (fun h => (candLe_iff _ _).mp h) hp

/-- C4 counterexample: on Scenario A the code returns the single item W1,
not the list [W1, W2] stated by the claim: W2 has priceOk = false, the
strict pass keeps only W1, and the relaxed pass never runs. -/
theorem C4_scenarioA_counterexample :
    (recommendProducts inputA).itemsOf ≠ [itemW1, itemW2] := by decide

/-- C4 amended: on Scenario A both items get matched = 1, W1 scores 1.5
and W2 scores 1, budgetRelaxed = false, but the ranked list is [W1] only:
W2 is dropped by the strict budget gate (priceOk = false) and Pass 1 is
non-empty, so the relaxed pass never runs. -/
theorem C4_scenarioA_amended :
    matchFacets itemW1 filtersA packEmpty = (1, 1) ∧
    matchFacets itemW2 filtersA packEmpty = (1, 1) ∧
    (scoreItem filtersA (.num 15) packEmpty itemW1).score = (3 : ℚ)/2 ∧
    (scoreItem filtersA (.num 15) packEmpty itemW2).score = 1 ∧
    (scoreItem filtersA (.num 15) packEmpty itemW1).priceOk = true ∧
    (scoreItem filtersA (.num 15) packEmpty itemW2).priceOk = false ∧
    (recommendProducts inputA).itemsOf = [itemW1] ∧
    (recommendProducts inputA).totalOf = 1 ∧
    (recommendProducts inputA).budgetRelaxedOf = some false := by
  have h32 : (3 : ℚ)/2 = mkRat 3 2 := by norm_num [Rat.mkRat_eq_div]
  refine ⟨by decide, by decide, ?_, by decide, by decide, by decide, by decide,
    by decide, by decide⟩
  rw [h32]
  decide

/-- C5 counterexample: a priceless item with a numeric budget and no
filters IS kept by the strict Pass 1 (its priceOk flag stays true, so the
strict budget gate passes), contradicting the claim that it is eligible
only when strict-budget filtering is not active. -/
theorem C5_priceless_counterexample :
    scoreItem [] (.num 10) packEmpty itemP1 ∈
      scoreOnce [itemP1] [] (.num 10) packEmpty true := by decide

/-- C5 amended: an item without a numeric price under a numeric budget
receives no bonus (score = matched) and keeps priceOk = true, and it
passes the budget part of the keep gate in BOTH passes: the keep gate
reduces to the must-match test alone, for the strict pass as well. -/
theorem C5_priceless_amended (filters : List (String × List String))
    (pack : DomainPackLike) (budget : Budget) (b : ℚ) (it : CatalogItem)
    (hp : it.price_eur = none) (hb : budget.toNum = some b) :
    (scoreItem filters budget pack it).score =
      (((matchFacets it filters pack).1 : Nat) : ℚ) ∧
    (scoreItem filters budget pack it).priceOk = true ∧
    budgetGateB budget (scoreItem filters budget pack it) = true ∧
    (∀ strict : Bool, keepCandidate filters budget strict
        (scoreItem filters budget pack it) =
      (if filters.isEmpty then true
       else decide (0 < (matchFacets it filters pack).1))) := by
  have hscore : scoreItem filters budget pack it =
      { item := it, score := (((matchFacets it filters pack).1 : Nat) : ℚ),
        matched := (matchFacets it filters pack).1,
        totalAsked := (matchFacets it filters pack).2, priceOk := true,
        deltaToBudget := priceDeltaToBudget it budget } := by
    unfold scoreItem
    rw [hb, hp]
  refine ⟨by rw [hscore], by rw [hscore], ?_, ?_⟩
  · unfold budgetGateB
    rw [hb, hscore]
  · intro strict
    unfold keepCandidate
    rw [hb, hscore]
    simp

/-- C5 amended witness at the concrete priceless item. -/
theorem C5_priceless_amended_witness :
    itemP1.price_eur = none ∧
    (scoreItem [] (.num 10) packEmpty itemP1).priceOk = true :=
  ⟨rfl, (C5_priceless_amended [] packEmpty (.num 10) 10 itemP1 rfl rfl).2.1⟩

/-- C6 counterexample: at limit = 3/2 the code uses the cap 1 (the int32
coercion truncates before clamping), while clamp(3/2, 1, 50) = 3/2, so
the effective cap is NOT clamp(limit, 1, 50) for non-integer limits. -/
theorem C6_limit_clamp_counterexample :
    effectiveLimit (some (mkRat 3 2)) = 1 ∧
    ((effectiveLimit (some (mkRat 3 2)) : ℚ) ≠ clampSpec (mkRat 3 2)) := by
  have h1 : effectiveLimit (some (mkRat 3 2)) = 1 := by decide
  refine ⟨h1, ?_⟩
  rw [h1]
  have h32 : mkRat 3 2 = (3 : ℚ)/2 := by norm_num [Rat.mkRat_eq_div]
  rw [h32]
  unfold clampSpec
  norm_num

/-- C6 amended: the effective cap is `clamp(toInt32(limit), 1, 50)`; for
integer limits inside the signed 32-bit range this coincides with
`clamp(limit, 1, 50)`, and in particular 0 ↦ 1, 1000 ↦ 50, 7 ↦ 7, with
the default 10 when no limit is given; no limit value is rejected (the
function is total).  Outside that range the `| 0` coercion wraps first
(e.g. 2^31 ↦ 1, see the counterexample for the non-integer case). -/
theorem C6_limit_clamp_amended :
    (∀ n : Int, -2147483648 ≤ n → n < 2147483648 →
       effectiveLimit (some ((n : ℤ) : ℚ)) = max 1 (min 50 n)) ∧
    effectiveLimit (some 0) = 1 ∧
    effectiveLimit (some 1000) = 50 ∧
    effectiveLimit (some 7) = 7 ∧
    effectiveLimit none = 10 ∧
    effectiveLimit (some 2147483648) = 1 := by
  refine ⟨?_, by decide, by decide, by decide, by decide, by decide⟩
  intro n h1 h2
  simp only [effectiveLimit, Option.getD_some]
  rw [toInt32_intCast n h1 h2]

/-- C6 amended witness at the in-range integer limit 7. -/
theorem C6_limit_clamp_amended_witness :
    effectiveLimit (some ((7 : ℤ) : ℚ)) = max 1 (min 50 7) :=
  C6_limit_clamp_amended.1 7 (by decide) (by decide)

/-- C8 counterexample: with the one-key mapping {color: []} every value
sequence is empty and totalAsked is 0, yet the pass keeps NO item (the
must-match gate counts keys, not asked facets), while the genuinely empty
mapping keeps the item: the two do not behave alike. -/
theorem C8_empty_values_counterexample :
    matchFacets itemA1 filtersEmptyVals packEmpty = (0, 0) ∧
    scoreOnce [itemA1] filtersEmptyVals .absent packEmpty true = [] ∧
    scoreOnce [itemA1] ([] : List (String × List String)) .absent packEmpty true ≠
      [] := by decide

/-- C8 amended: empty value sequences contribute nothing to matching
(matched = totalAsked = 0 for every item), but a filters mapping with at
least one key does NOT behave like the empty mapping: since matched = 0
for every item, the must-match gate (which tests key presence) drops
every item, and both passes return the empty candidate list. -/
theorem C8_empty_values_amended (filters : List (String × List String))
    (h : ∀ e ∈ filters, e.2 = ([] : List String)) :
    (∀ (item : CatalogItem) (pack : DomainPackLike),
       matchFacets item filters pack = (0, 0)) ∧
    (filters ≠ [] → ∀ (items : List CatalogItem) (budget : Budget)
       (pack : DomainPackLike) (strict : Bool),
       scoreOnce items filters budget pack strict = []) := by
  refine ⟨fun item pack => matchFacets_all_empty item pack filters h, ?_⟩
  intro hne items budget pack strict
  unfold scoreOnce
  have hnil : ((items.map (scoreItem filters budget pack)).filter
      (keepCandidate filters budget strict)) = [] := by
    rw [List.filter_eq_nil_iff]
    intro s hs
    obtain ⟨it, hit, rfl⟩ := List.mem_map.mp hs
    unfold keepCandidate
    have hm : (scoreItem filters budget pack it).matched = 0 := by
      show (matchFacets it filters pack).1 = 0
      rw [matchFacets_all_empty it pack filters h]
    have hie : filters.isEmpty = false := by
      cases filters with
      | nil => exact absurd rfl hne
      | cons a l => rfl
    rw [hm, hie]
    simp
  rw [hnil]
  rfl

/-- C8 amended witness at the concrete one-key mapping {color: []}. -/
theorem C8_empty_values_amended_witness :
    matchFacets itemA1 filtersEmptyVals packEmpty = (0, 0) ∧
    scoreOnce [itemA1] filtersEmptyVals .absent packEmpty true = [] := by
  have h := C8_empty_values_amended filtersEmptyVals (by decide)
  exact ⟨h.1 itemA1 packEmpty, h.2 (by decide) [itemA1] .absent packEmpty true⟩

/-! ### Toolkit: keep gate characterization and pipeline plumbing -/

theorem scoreItem_matched (filters : List (String × List String))
    (budget : Budget) (pack : DomainPackLike) (it : CatalogItem) :
    (scoreItem filters budget pack it).matched = (matchFacets it filters pack).1 := rfl

theorem keepCandidate_strict_iff (filters : List (String × List String))
    (budget : Budget) (s : Scored) :
    keepCandidate filters budget true s = true ↔
      ((filters = [] ∨ 0 < s.matched) ∧
       (budget.toNum = none ∨ s.priceOk = true)) := by
  unfold keepCandidate
  cases filters with
  | nil => cases hb : budget.toNum <;> simp [hb]
  | cons a l => cases hb : budget.toNum <;> simp [hb]

theorem one_le_effectiveLimit (lim : Option ℚ) : 1 ≤ effectiveLimit lim :=
  le_max_left _ _

theorem recommendProducts_cons (a : CatalogItem) (l : List CatalogItem)
    (filters : List (String × List String)) (budget : Budget)
    (pack : DomainPackLike) (lim : Option ℚ) :
    recommendProducts ⟨a :: l, filters, budget, pack, lim⟩ =
      (let strictList := scoreOnce (a :: l) filters budget pack true
       let fr : List Scored × Bool :=
         if strictList.isEmpty && budget.toNum.isSome then
           (scoreOnce (a :: l) filters budget pack false, true)
         else (strictList, false)
       let window := fr.1.take (effectiveLimit lim).toNat
       let items := window.map Scored.item
       if items.isEmpty then
         .noMatch ⟨filters, budget⟩ (computeDiagnostics filters pack) fr.2
           (effectiveLimit lim)
       else
         .success ⟨filters, budget⟩ (computeDiagnostics filters pack) fr.1.length
           items (debugOf window) fr.2 (effectiveLimit lim)) := rfl

theorem take_map_ne_nil {l : List Scored} (hl : l ≠ []) {n : Nat} (hn : n ≠ 0) :
    (l.take n).map Scored.item ≠ [] := by
  rw [Ne, List.map_eq_nil_iff, List.take_eq_nil_iff]
  intro hcon
  rcases hcon with h | h
  · exact hn h
  · exact hl h

/-! ### C1, C2, C9 claim theorems -/

/-- C1: an item of the catalog is kept by the strict pass exactly when
(the filters mapping is empty or its matchedCount from matchFacets is
positive) and (no numeric budget is given or its priceOk flag is true). -/
theorem C1_strict_keep_gate (items : List CatalogItem)
    (filters : List (String × List String)) (budget : Budget)
    (pack : DomainPackLike) (it : CatalogItem) (h : it ∈ items) :
    scoreItem filters budget pack it ∈ scoreOnce items filters budget pack true ↔
      ((filters = [] ∨ 0 < (matchFacets it filters pack).1) ∧
       (budget.toNum = none ∨ (scoreItem filters budget pack it).priceOk = true)) := by
  unfold scoreOnce
  rw [mem_sortLe, List.mem_filter]
  have hm : scoreItem filters budget pack it ∈
      items.map (scoreItem filters budget pack) := List.mem_map_of_mem _ h
  rw [keepCandidate_strict_iff, scoreItem_matched]
  exact and_iff_right hm

/-- C1 witness at Scenario A with item W1. -/
theorem C1_strict_keep_gate_witness :
    itemW1 ∈ [itemW1, itemW2] ∧
    (scoreItem filtersA (.num 15) packEmpty itemW1 ∈
        scoreOnce [itemW1, itemW2] filtersA (.num 15) packEmpty true ↔
      ((filtersA = [] ∨ 0 < (matchFacets itemW1 filtersA packEmpty).1) ∧
       ((Budget.num 15).toNum = none ∨
        (scoreItem filtersA (.num 15) packEmpty itemW1).priceOk = true))) :=
  ⟨by decide, C1_strict_keep_gate [itemW1, itemW2] filtersA (.num 15) packEmpty
    itemW1 (by decide)⟩

/-- C2: when the strict pass keeps at least one candidate, the relaxed
pass never runs and the result is the success shaped from the strict pass
with budgetRelaxed = false; when the catalog is non-empty, the strict
pass keeps nothing and a numeric budget was given, the relaxed pass runs
and the result carries budgetRelaxed = true (no-match or success shaped
from the relaxed pass). -/
theorem C2_budget_relaxation_trigger (items : List CatalogItem)
    (filters : List (String × List String)) (budget : Budget)
    (pack : DomainPackLike) (lim : Option ℚ) :
    (scoreOnce items filters budget pack true ≠ [] →
       recommendProducts ⟨items, filters, budget, pack, lim⟩ =
         .success ⟨filters, budget⟩ (computeDiagnostics filters pack)
           (scoreOnce items filters budget pack true).length
           (((scoreOnce items filters budget pack true).take
              (effectiveLimit lim).toNat).map Scored.item)
           (debugOf ((scoreOnce items filters budget pack true).take
              (effectiveLimit lim).toNat))
           false (effectiveLimit lim)) ∧
    (items ≠ [] → scoreOnce items filters budget pack true = [] →
       budget.toNum.isSome = true →
       (recommendProducts ⟨items, filters, budget, pack, lim⟩).budgetRelaxedOf =
         some true ∧
       recommendProducts ⟨items, filters, budget, pack, lim⟩ =
         (if scoreOnce items filters budget pack false = [] then
            .noMatch ⟨filters, budget⟩ (computeDiagnostics filters pack) true
              (effectiveLimit lim)
          else
            .success ⟨filters, budget⟩ (computeDiagnostics filters pack)
              (scoreOnce items filters budget pack false).length
              (((scoreOnce items filters budget pack false).take
                 (effectiveLimit lim).toNat).map Scored.item)
              (debugOf ((scoreOnce items filters budget pack false).take
                 (effectiveLimit lim).toNat))
              true (effectiveLimit lim))) := by
  have hLn : (effectiveLimit lim).toNat ≠ 0 := by
    have h1 := one_le_effectiveLimit lim
    omega
  constructor
  · intro hp1
    have hitems : items ≠ [] := by
      intro he
      apply hp1
      rw [he]
      rfl
    obtain ⟨a, l, rfl⟩ : ∃ a l, items = a :: l := by
      cases items with
      | nil => exact absurd rfl hitems
      | cons a l => exact ⟨a, l, rfl⟩
    rw [recommendProducts_cons]
    have hie : (scoreOnce (a :: l) filters budget pack true).isEmpty = false :=
      List.isEmpty_eq_false.mpr hp1
    simp only [hie, Bool.false_and, Bool.false_eq_true, if_false]
    have hw := take_map_ne_nil hp1 hLn
    rw [if_neg (by simpa using hw)]
  · intro hitems hp1 hbs
    obtain ⟨a, l, rfl⟩ : ∃ a l, items = a :: l := by
      cases items with
      | nil => exact absurd rfl hitems
      | cons a l => exact ⟨a, l, rfl⟩
    rw [recommendProducts_cons]
    have hie : (scoreOnce (a :: l) filters budget pack true).isEmpty = true := by
      rw [hp1]
      rfl
    simp only [hie, Bool.true_and, hbs, if_true]
    by_cases hp2 : scoreOnce (a :: l) filters budget pack false = []
    · rw [hp2]
      simp only [List.take_nil, List.map_nil, List.isEmpty_nil, if_true, if_pos rfl]
      constructor <;> first | rfl | trivial
    · have hw := take_map_ne_nil hp2 hLn
      rw [if_neg (by simpa using hw), if_neg hp2]
      exact ⟨rfl, rfl⟩

/-- C2 witness at Scenario A (strict pass non-empty, first branch) and at
Scenario A with budget 5 (strict pass empty, relaxed branch). -/
theorem C2_budget_relaxation_trigger_witness :
    (scoreOnce [itemW1, itemW2] filtersA (.num 15) packEmpty true ≠ [] ∧
     recommendProducts ⟨[itemW1, itemW2], filtersA, .num 15, packEmpty, none⟩ =
       .success ⟨filtersA, .num 15⟩ (computeDiagnostics filtersA packEmpty)
         (scoreOnce [itemW1, itemW2] filtersA (.num 15) packEmpty true).length
         (((scoreOnce [itemW1, itemW2] filtersA (.num 15) packEmpty true).take
            (effectiveLimit none).toNat).map Scored.item)
         (debugOf ((scoreOnce [itemW1, itemW2] filtersA (.num 15) packEmpty true).take
            (effectiveLimit none).toNat))
         false (effectiveLimit none)) ∧
    ([itemW1, itemW2] ≠ ([] : List CatalogItem) ∧
     scoreOnce [itemW1, itemW2] filtersA (.num 5) packEmpty true = [] ∧
     (Budget.num 5).toNum.isSome = true ∧
     (recommendProducts ⟨[itemW1, itemW2], filtersA, .num 5, packEmpty, none⟩).budgetRelaxedOf =
       some true) := by
  have h15 := C2_budget_relaxation_trigger [itemW1, itemW2] filtersA (.num 15)
    packEmpty none
  have h5 := C2_budget_relaxation_trigger [itemW1, itemW2] filtersA (.num 5)
    packEmpty none
  refine ⟨⟨by decide, h15.1 (by decide)⟩, by decide, by decide, by decide, ?_⟩
  exact (h5.2 (by decide) (by decide) (by decide)).1

/-- C9: the computation is a total function (the embedding itself); the
empty catalog always yields the `empty_catalog` variant carrying total 0
and no items, for every filters/budget/pack/limit (including a NaN
budget), and every non-success result is tagged with reason
`empty_catalog` or `no_match`. -/
theorem C9_no_exceptions (filters : List (String × List String))
    (budget : Budget) (pack : DomainPackLike) (lim : Option ℚ) :
    (recommendProducts ⟨[], filters, budget, pack, lim⟩ =
       .emptyCatalog (computeDiagnostics filters pack) (effectiveLimit lim)) ∧
    ((recommendProducts ⟨[], filters, budget, pack, lim⟩).totalOf = 0 ∧
     (recommendProducts ⟨[], filters, budget, pack, lim⟩).itemsOf = []) ∧
    (∀ items : List CatalogItem,
       ((recommendProducts ⟨items, filters, budget, pack, lim⟩).okB = false ↔
          ((recommendProducts ⟨items, filters, budget, pack, lim⟩).reasonOf =
             some "empty_catalog" ∨
           (recommendProducts ⟨items, filters, budget, pack, lim⟩).reasonOf =
             some "no_match"))) := by
  refine ⟨rfl, ⟨rfl, rfl⟩, ?_⟩
  intro items
  cases hr : recommendProducts ⟨items, filters, budget, pack, lim⟩ <;>
    simp [RankResult.okB, RankResult.reasonOf]

/-! ### Toolkit: diagnostics characterization -/

theorem computeDiagnostics_cons_unknown (fk : String) (vs : List String)
    (rest : List (String × List String)) (pack : DomainPackLike)
    (h : pack.facets.lookup fk = none) :
    computeDiagnostics ((fk, vs) :: rest) pack =
      ⟨fk :: (computeDiagnostics rest pack).unknownFacetKeys,
       (computeDiagnostics rest pack).unknownFacetValues⟩ := by
  simp only [computeDiagnostics]
  rw [h]

theorem computeDiagnostics_cons_known (fk : String) (vs : List String)
    (rest : List (String × List String)) (pack : DomainPackLike) (fdef : FacetDef)
    (h : pack.facets.lookup fk = some fdef) :
    computeDiagnostics ((fk, vs) :: rest) pack =
      (if (vs.filter (fun raw => isUnknownValue pack fdef raw)).isEmpty then
         computeDiagnostics rest pack
       else
         ⟨(computeDiagnostics rest pack).unknownFacetKeys,
          (fk, vs.filter (fun raw => isUnknownValue pack fdef raw)) ::
            (computeDiagnostics rest pack).unknownFacetValues⟩) := by
  simp only [computeDiagnostics]
  rw [h]

theorem unknownFacetKeys_iff (filters : List (String × List String))
    (pack : DomainPackLike) (k : String) :
    k ∈ (computeDiagnostics filters pack).unknownFacetKeys ↔
      ((∃ vs, (k, vs) ∈ filters) ∧ pack.facets.lookup k = none) := by
  induction filters with
  | nil => simp [computeDiagnostics]
  | cons e rest ih =>
    obtain ⟨fk, vs⟩ := e
    cases hlk : pack.facets.lookup fk with
    | none =>
      rw [computeDiagnostics_cons_unknown fk vs rest pack hlk]
      show k ∈ fk :: (computeDiagnostics rest pack).unknownFacetKeys ↔ _
      rw [List.mem_cons, ih]
      constructor
      · rintro (rfl | ⟨⟨ws, hw⟩, hnone⟩)
        · exact ⟨⟨vs, List.mem_cons_self _ _⟩, hlk⟩
        · exact ⟨⟨ws, List.mem_cons_of_mem _ hw⟩, hnone⟩
      · rintro ⟨⟨ws, hw⟩, hnone⟩
        rcases List.mem_cons.mp hw with heq | hw2
        · have h1 : k = fk := congrArg Prod.fst heq
          exact Or.inl h1
        · exact Or.inr ⟨⟨ws, hw2⟩, hnone⟩
    | some fdef =>
      rw [computeDiagnostics_cons_known fk vs rest pack fdef hlk]
      have hkeys : (if (vs.filter (fun raw => isUnknownValue pack fdef raw)).isEmpty then
            computeDiagnostics rest pack
          else
            ⟨(computeDiagnostics rest pack).unknownFacetKeys,
             (fk, vs.filter (fun raw => isUnknownValue pack fdef raw)) ::
               (computeDiagnostics rest pack).unknownFacetValues⟩ :
            Diagnostics).unknownFacetKeys =
          (computeDiagnostics rest pack).unknownFacetKeys := by
        split <;> rfl
      rw [hkeys, ih]
      constructor
      · rintro ⟨⟨ws, hw⟩, hnone⟩
        exact ⟨⟨ws, List.mem_cons_of_mem _ hw⟩, hnone⟩
      · rintro ⟨⟨ws, hw⟩, hnone⟩
        rcases List.mem_cons.mp hw with heq | hw2
        · have h1 : k = fk := congrArg Prod.fst heq
          rw [h1] at hnone
          rw [hlk] at hnone
          exact Option.noConfusion hnone
        · exact ⟨⟨ws, hw2⟩, hnone⟩

theorem unknownFacetValues_keys_sub (pack : DomainPackLike) :
    ∀ (filters : List (String × List String)) (k : String) (us : List String),
    (k, us) ∈ (computeDiagnostics filters pack).unknownFacetValues →
    ∃ vs, (k, vs) ∈ filters := by
  intro filters
  induction filters with
  | nil => intro k us h; simp [computeDiagnostics] at h
  | cons e rest ih =>
    obtain ⟨fk, vs⟩ := e
    intro k us h
    cases hlk : pack.facets.lookup fk with
    | none =>
      rw [computeDiagnostics_cons_unknown fk vs rest pack hlk] at h
      rcases ih k us h with ⟨ws, hw⟩
      exact ⟨ws, List.mem_cons_of_mem _ hw⟩
    | some fdef =>
      rw [computeDiagnostics_cons_known fk vs rest pack fdef hlk] at h
      split at h
      · rcases ih k us h with ⟨ws, hw⟩
        exact ⟨ws, List.mem_cons_of_mem _ hw⟩
      · rcases List.mem_cons.mp h with heq | h2
        · have h1 : k = fk := congrArg Prod.fst heq
          rw [h1]
          exact ⟨vs, List.mem_cons_self _ _⟩
        · rcases ih k us h2 with ⟨ws, hw⟩
          exact ⟨ws, List.mem_cons_of_mem _ hw⟩

theorem unknownFacetValues_lookup (pack : DomainPackLike) :
    ∀ (filters : List (String × List String)),
    (filters.map Prod.fst).Nodup →
    ∀ (k : String) (vs : List String) (fdef : FacetDef),
    (k, vs) ∈ filters → pack.facets.lookup k = some fdef →
    (computeDiagnostics filters pack).unknownFacetValues.lookup k =
      (if (vs.filter (fun raw => isUnknownValue pack fdef raw)).isEmpty then none
       else some (vs.filter (fun raw => isUnknownValue pack fdef raw))) := by
  intro filters
  induction filters with
  | nil => intro _ k vs fdef h _; simp at h
  | cons e rest ih =>
    obtain ⟨fk, ws⟩ := e
    intro hnd k vs fdef hmem hlk
    rw [List.map_cons, List.nodup_cons] at hnd
    have hnd1 : fk ∉ List.map Prod.fst rest := hnd.1
    have hnd2 : (List.map Prod.fst rest).Nodup := hnd.2
    rcases List.mem_cons.mp hmem with heq | hmem2
    · have h1 : k = fk := congrArg Prod.fst heq
      have h2 : vs = ws := congrArg Prod.snd heq
      subst h1
      subst h2
      rw [computeDiagnostics_cons_known k vs rest pack fdef hlk]
      split
      · rw [List.lookup_eq_none_iff]
        intro p hp
        rcases unknownFacetValues_keys_sub pack rest p.1 p.2 hp with ⟨zs, hz⟩
        have hpk : p.1 ≠ k := by
          intro hcon
          apply hnd1
          rw [← hcon]
          have hm1 : Prod.fst (p.1, zs) ∈ List.map Prod.fst rest :=
            List.mem_map_of_mem Prod.fst hz
          exact hm1
        simpa using fun hcon => hpk hcon.symm
      · exact List.lookup_cons_self
    · have hkne : k ≠ fk := by
        intro heq
        apply hnd1
        rw [← heq]
        have : (k, vs).1 ∈ List.map Prod.fst rest :=
          List.mem_map_of_mem Prod.fst hmem2
        exact this
      cases hlk2 : pack.facets.lookup fk with
      | none =>
        rw [computeDiagnostics_cons_unknown fk ws rest pack hlk2]
        exact ih hnd2 k vs fdef hmem2 hlk
      | some fdef2 =>
        rw [computeDiagnostics_cons_known fk ws rest pack fdef2 hlk2]
        split
        · exact ih hnd2 k vs fdef hmem2 hlk
        · show (((fk, ws.filter (fun raw => isUnknownValue pack fdef2 raw)) ::
              (computeDiagnostics rest pack).unknownFacetValues).lookup k) = _
          rw [List.lookup_cons]
          have hbeq : (k == fk) = false := beq_eq_false_iff_ne.mpr hkne
          rw [hbeq]
          exact ih hnd2 k vs fdef hmem2 hlk

/-! ### C7 claim theorem -/

/-- C7: `computeDiagnostics` records a requested facet key under
`unknownFacetKeys` exactly when it is absent from `pack.facets`; for a
known key, a requested raw value is recorded (in its original raw form)
under `unknownFacetValues[key]` exactly when its global normalization
followed by the facet's valueSynonyms lookup is not in the allowed set
built by globally normalizing the declared values (the `isUnknownValue`
test); and the diagnostics of every ranking result equal
`computeDiagnostics` of the filters and pack alone, whatever the catalog. -/
theorem C7_diagnostics_content (filters : List (String × List String))
    (pack : DomainPackLike) :
    (∀ k : String, k ∈ (computeDiagnostics filters pack).unknownFacetKeys ↔
       ((∃ vs, (k, vs) ∈ filters) ∧ pack.facets.lookup k = none)) ∧
    ((filters.map Prod.fst).Nodup →
       ∀ (k : String) (vs : List String) (fdef : FacetDef),
         (k, vs) ∈ filters → pack.facets.lookup k = some fdef →
         ∀ v : String,
           (v ∈ (((computeDiagnostics filters pack).unknownFacetValues.lookup k).getD []) ↔
             (v ∈ vs ∧ isUnknownValue pack fdef v = true))) ∧
    (∀ (items : List CatalogItem) (budget : Budget) (lim : Option ℚ),
       (recommendProducts ⟨items, filters, budget, pack, lim⟩).diagnosticsOf =
         computeDiagnostics filters pack) := by
  refine ⟨fun k => unknownFacetKeys_iff filters pack k, ?_, ?_⟩
  · intro hnd k vs fdef hmem hlk v
    rw [unknownFacetValues_lookup pack filters hnd k vs fdef hmem hlk]
    by_cases hcase : (vs.filter (fun raw => isUnknownValue pack fdef raw)).isEmpty
    · rw [if_pos hcase]
      rw [List.isEmpty_iff] at hcase
      simp only [Option.getD_none, List.not_mem_nil, false_iff]
      rintro ⟨hv, hu⟩
      have hmf : v ∈ vs.filter (fun raw => isUnknownValue pack fdef raw) :=
        List.mem_filter.mpr ⟨hv, hu⟩
      rw [hcase] at hmf
      exact List.not_mem_nil v hmf
    · rw [if_neg hcase]
      simp only [Option.getD_some]
      exact List.mem_filter
  · intro items budget lim
    cases items with
    | nil => rfl
    | cons a l =>
      rw [recommendProducts_cons]
      dsimp only
      split <;> split <;> rfl

/-- C7 witness: one known key with a known and an unknown value. -/
theorem C7_diagnostics_content_witness :
    ("blue" ∈ (((computeDiagnostics filtersC packC).unknownFacetValues.lookup
        "color").getD []) ↔
      ("blue" ∈ ["red", "blue"] ∧ isUnknownValue packC ⟨["red"], []⟩ "blue" = true)) :=
  (C7_diagnostics_content filtersC packC).2.1 (by decide) "color" ["red", "blue"]
    ⟨["red"], []⟩ (by decide) (by decide) "blue"

/-- C10 witness: a candidate of the strict pass at Scenario A occurs in
the relaxed pass as well. -/
theorem C10_relaxation_monotonic_witness :
    scoreItem filtersA (.num 15) packEmpty itemW1 ∈
      scoreOnce [itemW1, itemW2] filtersA (.num 15) packEmpty false :=
  (C10_relaxation_monotonic [itemW1, itemW2] filtersA (.num 15) packEmpty).2.2
    (scoreItem filtersA (.num 15) packEmpty itemW1) (by decide)
